import Mathlib

/-!
Verification development for the GNB two-phase scraping pipeline (GNB.py).

The pipeline's pure logic (URL normalization, price-pattern matching,
duplicate checks, progress bookkeeping, the per-city phase loops and the
bounded scroller) is embedded shallowly below.  Everything the program
reads from the outside world — the browser DOM, element lookups, page
text, and the success or failure of individual database connections — is
passed in explicitly as input (an environment of values the corresponding
Selenium / pymysql call would have produced), and the SQL tables become
explicit state: the lead table is a list of rows, the progress table a
finite map keyed on (city, phase), mirroring their UNIQUE keys.  String
comparison in SQL is modelled as exact equality (the MySQL collation is
abstracted away).
-/

namespace GNB

/-! ## String helpers (character-list level, so proofs can compute) -/

/-- Lower-case a string character by character (models Python `str.lower()`
on the ASCII range that the pipeline's keys use). -/
def lowerS (s : String) : String := ⟨s.data.map Char.toLower⟩

/-- Bool test that `p` is a prefix of `l` (models `str.startswith` and SQL
`LIKE 'p%'`). -/
def startsL (p l : List Char) : Bool := p.isPrefixOf l

/-- Characters before the first comma (models `url.split(',')[0]`). -/
def takeUntilComma : List Char → List Char
  | [] => []
  | c :: rest => if c = ',' then [] else c :: takeUntilComma rest

/-- String wrapper for `takeUntilComma`. -/
def beforeComma (s : String) : String := ⟨takeUntilComma s.data⟩

/-- Bool substring test (models Python `needle in haystack`). -/
def containsSubL (needle : List Char) : List Char → Bool
  | [] => needle.isPrefixOf []
  | c :: rest => needle.isPrefixOf (c :: rest) || containsSubL needle rest

/-- String wrapper for `containsSubL`. -/
def containsSub (needle s : String) : Bool := containsSubL needle.data s.data

/-- Drop every trailing `'/'` (models `url.rstrip('/')`). -/
def dropTrailingSlashL (l : List Char) : List Char :=
  ((l.reverse.dropWhile (· = '/')).reverse)

/-! ## URL normalization — `clean_and_validate_url` (GNB.py lines 470-480) -/

/-- Core of `clean_and_validate_url`, run after the emptiness/sentinel
check: keep only the part before the first comma, map links into the map
application to the sentinel, force the `https://` scheme, and strip
trailing slashes. -/
def cleanChars (l0 : List Char) : List Char :=
  let l := takeUntilComma l0
  if containsSubL "google.com/url".data l || containsSubL "google.com/maps".data l then
    "N/A".data
  else
    let l1 := if startsL "http://".data l then "https://".data ++ l.drop 7 else l
    let l2 :=
      if !startsL "https://".data l1 && !startsL "http://".data l1 then
        "https://".data ++ l1
      else l1
    dropTrailingSlashL l2

/-- Embedding of `clean_and_validate_url` (GNB.py lines 470-480).  A `None`
or empty href is modelled by the empty string; Python's
`url.replace('http://', 'https://', 1)` is applied under the
`url.startswith('http://')` guard, where the leftmost occurrence is the
7-character prefix, hence the `drop 7` form in `cleanChars`. -/
def clean_and_validate_url (url : String) : String :=
  if url = "" ∨ url = "N/A" then "N/A" else ⟨cleanChars url.data⟩

/-- Embedding of `extract_website` (GNB.py lines 534-546).  The input list
holds, per selector strategy, the href the browser returned (`none` when
the element lookup failed or the anchor had no href). -/
def extract_website : List (Option String) → String
  | [] => "N/A"
  | none :: rest => extract_website rest
  | some h :: rest =>
    if h ≠ "" ∧ containsSub "google.com/maps" h = false then
      clean_and_validate_url h
    else extract_website rest

/-! ## Data model — the two SQL tables (GNB.py lines 250-298)

One `LeadRow` per row of the lead table, fields in column order; the
progress table, UNIQUE on (city, phase), is a finite map from that key to
a status.  Timestamps carry no information the claims touch and the
`started_at` / `completed_at` columns are dropped from the progress model;
the lead table's `Scraped At` is kept as an opaque string. -/

structure LeadRow where
  city : String
  name : String
  rating : String
  address : String
  phone : String
  website : String
  timings : String
  logo_url : String
  services : String
  pricing : String
  scraped_at : String
deriving DecidableEq

inductive Phase where
  | phase1
  | phase2
deriving DecidableEq

/-- The progress schema's status ENUM('in_progress','completed'). -/
inductive PStatus where
  | in_progress
  | completed
deriving DecidableEq

/-- The scraper_progress table, keyed on its UNIQUE (city, phase). -/
abbrev ProgressTable := String → Phase → Option PStatus

/-- The upsert (`INSERT ... ON DUPLICATE KEY UPDATE status=...`) used by
both progress marks: the row for (city, phase) gets the new status whether
or not it existed. -/
def upsertStatus (t : ProgressTable) (city : String) (ph : Phase) (st : PStatus) :
    ProgressTable :=
  fun c p => if c = city ∧ p = ph then some st else t c p

/-- Combined database state owned by the pipeline. -/
structure DB where
  leads : List LeadRow
  progress : ProgressTable

/-- Embedding of `mark_phase_started` (GNB.py lines 301-317): a failed
connection (`connOk = false`) silently writes nothing. -/
def mark_phase_started (connOk : Bool) (db : DB) (city : String) (ph : Phase) : DB :=
  if connOk then { db with progress := upsertStatus db.progress city ph .in_progress }
  else db

/-- Embedding of `mark_phase_completed` (GNB.py lines 320-337): a failed
connection silently writes nothing. -/
def mark_phase_completed (connOk : Bool) (db : DB) (city : String) (ph : Phase) : DB :=
  if connOk then { db with progress := upsertStatus db.progress city ph .completed }
  else db

/-- Embedding of `is_phase_completed` (GNB.py lines 340-354): false when
the connection cannot be obtained (`connOk = false`), when the status
query raises (`queryOk = false`), when no row exists, or when the row is
not `completed`. -/
def is_phase_completed (connOk queryOk : Bool) (t : ProgressTable)
    (city : String) (ph : Phase) : Bool :=
  connOk && queryOk && decide (t city ph = some .completed)

/-- Embedding of `check_duplicate` (GNB.py lines 357-366): COUNT(*) > 0
for the exact (City, Name) pair. -/
def check_duplicate (leads : List LeadRow) (city name : String) : Bool :=
  leads.any (fun r => r.city = city && r.name = name)

/-- Embedding of `save_google_maps_data` (GNB.py lines 369-393): returns
false without touching the table when the connection fails or the
(City, Name) key already exists, else inserts one row whose three
enrichment columns are the sentinel and returns true. -/
def save_google_maps_data (connOk : Bool) (db : DB)
    (city name rating address phone website timings scraped_at : String) :
    DB × Bool :=
  if !connOk then (db, false)
  else if check_duplicate db.leads city name then (db, false)
  else
    ({ db with
        leads := db.leads ++
          [⟨city, name, rating, address, phone, website, timings,
            "N/A", "N/A", "N/A", scraped_at⟩] },
      true)

/-- Embedding of `update_website_data` (GNB.py lines 396-422): no write
when all three supplied values are the sentinel or the connection fails;
the UPDATE sets exactly the three enrichment columns of every row matching
(City, Name); pymysql's rowcount counts rows whose values actually
changed, and with rowcount = 0 the transaction is discarded, so the
update commits (returning true) exactly when some matching row changes. -/
def update_website_data (connOk : Bool) (db : DB)
    (city name logo_url services pricing : String) : DB × Bool :=
  if logo_url = "N/A" ∧ services = "N/A" ∧ pricing = "N/A" then (db, false)
  else if !connOk then (db, false)
  else if db.leads.any (fun r =>
      r.city = city && r.name = name &&
      (r.logo_url ≠ logo_url || r.services ≠ services || r.pricing ≠ pricing)) then
    ({ db with
        leads := db.leads.map (fun r =>
          if r.city = city ∧ r.name = name then
            { r with logo_url := logo_url, services := services, pricing := pricing }
          else r) },
      true)
  else (db, false)

/-- Embedding of `get_leads_with_websites` (GNB.py lines 425-441) for a
successful query: city match, website neither the sentinel nor failing
`LIKE 'http%'`, and all three enrichment columns still the sentinel. -/
def get_leads_with_websites (db : DB) (city : String) : List (String × String) :=
  (db.leads.filter (fun r =>
      r.city = city && r.website ≠ "N/A" && startsL "http".data r.website.data &&
      r.logo_url = "N/A" && r.services = "N/A" && r.pricing = "N/A")).map
    (fun r => (r.name, r.website))

/-- Embedding of `get_existing_count` (GNB.py lines 444-453). -/
def get_existing_count (db : DB) (city : String) : Nat :=
  (db.leads.filter (fun r => r.city = city)).length

/-- Embedding of `get_existing_names` (GNB.py lines 456-465): the
lower-cased (City, Name) keys of the whole table (as a list used only for
membership, standing for the Python set). -/
def get_existing_names (db : DB) : List (String × String) :=
  db.leads.map (fun r => (lowerS r.city, lowerS r.name))

/-! ## Result-list scroller — `scroll_results_container` (GNB.py lines 623-700)

The browser is the environment: what each card-count probe and
end-of-results check would observe is supplied per attempt.  The function
returns the number of loop iterations the `for attempt in range(300)` loop
executed, which is the quantity claim C6 bounds. -/

structure ScrollEnv where
  containerFound : Bool
  initialCount : Nat
  countAtTop : Nat → Nat
  countAfterScroll : Nat → Nat
  endMarker : Nat → Bool
  countAfterNudge : Nat → Nat

/-- One-for-one translation of the scroll loop body: break on target
reached; scroll and re-count; break on the end-of-results marker; reset
the no-change streak on growth; after 6 non-increasing counts nudge and
break if the nudge also fails to grow the count.  `fuel` is the remaining
iteration budget of `range(300)`. -/
def scrollLoop (env : ScrollEnv) (target : Nat) :
    Nat → Nat → Nat → Nat → Nat
  | 0, _, _, _ => 0
  | fuel + 1, attempt, last_count, streak =>
    1 +
      (if target ≤ env.countAtTop attempt then 0
       else
        let new_count := env.countAfterScroll attempt
        if env.endMarker attempt then 0
        else if last_count < new_count then
          scrollLoop env target fuel (attempt + 1) new_count 0
        else if 6 ≤ streak + 1 then
          let final_count := env.countAfterNudge attempt
          if final_count ≤ last_count then 0
          else scrollLoop env target fuel (attempt + 1) final_count 0
        else scrollLoop env target fuel (attempt + 1) last_count (streak + 1))

/-- Embedding of `scroll_results_container`: when no results container is
found the function returns at once having executed no attempt; otherwise
it runs the bounded loop starting from the pre-loop card count. -/
def scroll_results_container (env : ScrollEnv) (target : Nat) : Nat :=
  if !env.containerFound then 0
  else scrollLoop env target 300 0 env.initialCount 0

/-! ## Phase 1 — `run_phase1_for_city` (GNB.py lines 975-1147)

Each iteration of the `while scraped_count < MAX_LEADS_PER_CITY` loop
interacts with the browser; the outcome of those interactions is one
`Ev` drawn from the run's event list.  Exhausting the event list models a
run that dies mid-loop (crash / process kill): no code after the loop
executes.  The per-iteration database logic (duplicate suppression against
the lower-cased key set, the insert, the counters and the cursor) is
translated directly. -/

def MAX_LEADS_PER_CITY : Nat := 200

/-- The listing fields `scrape_dealership_details` extracted for one card
(GNB.py lines 821-834), plus the timestamp taken at save time. -/
structure CardData where
  name : String
  rating : String
  address : String
  phone : String
  website : String
  timings : String
  scraped_at : String
deriving DecidableEq

/-- What the browser did during one iteration of the Phase 1 loop.

* `signin recovered`: the sign-in interstitial was detected at the top of
  the iteration; `recovered` is the result of `handle_google_signin` —
  on failure the loop `break`s, on success the list is re-scrolled and the
  cursor reset (GNB.py lines 1020-1027).
* `exhausted`: the cursor passed the loaded-card count and the incremental
  scroll loaded nothing new, so the loop `break`s (lines 1031-1038).
* `skip`: the card could not be clicked, or the detail panel never showed
  a fresh name, or the card list raced past the cursor — the cursor
  advances with nothing extracted (lines 1042-1094).
* `card d saveConn`: detail extraction produced `d` (lines 1096-1119);
  `saveConn` is whether the insert's own database connection succeeds.
* `fail signinAfter handled`: an exception escaped to the per-card handler
  (lines 1129-1143), which re-checks the interstitial (resetting the
  cursor when the re-search succeeds) and then advances the cursor. -/
inductive Ev where
  | signin (recovered : Bool)
  | exhausted
  | skip
  | card (d : CardData) (saveConn : Bool)
  | fail (signinAfter handled : Bool)

/-- Coarse browser-action trace, used to state that a skipped city incurs
no search, no scrolling and no extraction. -/
inductive Action where
  | search
  | scroll
  | extract
deriving DecidableEq

/-- How the Phase 1 while-loop ended. -/
inductive LoopExit where
  | capReached
  | exhausted
  | signinAbort
  | crashed
deriving DecidableEq

structure LoopState where
  db : DB
  names : List (String × String)
  scraped : Nat
  errors : Nat
  idx : Nat
  trace : List Action

/-- The Phase 1 while-loop (GNB.py lines 1018-1143), one `Ev` consumed per
iteration.  An empty event list mid-loop is the crashed run. -/
def phase1Loop (city : String) : List Ev → LoopState → LoopState × LoopExit
  | evs, s =>
    if MAX_LEADS_PER_CITY ≤ s.scraped then (s, .capReached)
    else
      match evs with
      | [] => (s, .crashed)
      | ev :: rest =>
        match ev with
        | .signin recovered =>
          if recovered then
            phase1Loop city rest
              { s with idx := 0, trace := s.trace ++ [.scroll] }
          else (s, .signinAbort)
        | .exhausted => ({ s with trace := s.trace ++ [.scroll] }, .exhausted)
        | .skip => phase1Loop city rest { s with idx := s.idx + 1 }
        | .card d saveConn =>
          if d.name = "N/A" then
            phase1Loop city rest
              { s with idx := s.idx + 1, trace := s.trace ++ [.extract] }
          else
            let key := (lowerS city, lowerS d.name)
            if key ∈ s.names then
              phase1Loop city rest
                { s with idx := s.idx + 1, trace := s.trace ++ [.extract] }
            else
              match save_google_maps_data saveConn s.db city d.name d.rating
                  d.address d.phone d.website d.timings d.scraped_at with
              | (db', true) =>
                phase1Loop city rest
                  { s with
                      db := db', names := key :: s.names,
                      scraped := s.scraped + 1, idx := s.idx + 1,
                      trace := s.trace ++ [.extract] }
              | (db', false) =>
                phase1Loop city rest
                  { s with
                      db := db', idx := s.idx + 1,
                      trace := s.trace ++ [.extract] }
        | .fail signinAfter handled =>
          let s1 := { s with errors := s.errors + 1 }
          let s2 :=
            if signinAfter && handled then
              { s1 with idx := 0, trace := s1.trace ++ [.scroll] }
            else s1
          phase1Loop city rest { s2 with idx := s2.idx + 1 }

/-- Per-run environment for Phase 1: the outcome of each database
connection attempt outside the loop, of the search, the pre-scroll card
count, and the loop's event list. -/
structure Phase1Env where
  checkConn : Bool
  checkQuery : Bool
  startConn : Bool
  mainConn : Bool
  searchOk : Bool
  initialCards : Nat
  events : List Ev
  completeConn : Bool

/-- How `run_phase1_for_city` ended. -/
inductive P1Exit where
  | skippedCompleted
  | dbFail
  | searchFail
  | noCards
  | loopExit (k : LoopExit)
deriving DecidableEq

structure P1Out where
  db : DB
  trace : List Action
  scraped : Nat
  exit : P1Exit

/-- Embedding of `run_phase1_for_city` (GNB.py lines 975-1147): skip when
the completion check says done; mark in_progress; read the existing count
and key set (early return on connection failure); search; pre-scroll;
early return when no cards loaded; run the loop; and — except when the
run crashed mid-loop — mark phase1 completed. -/
def run_phase1_for_city (env : Phase1Env) (db : DB) (city : String) : P1Out :=
  if is_phase_completed env.checkConn env.checkQuery db.progress city .phase1 then
    ⟨db, [], 0, .skippedCompleted⟩
  else
    let db1 := mark_phase_started env.startConn db city .phase1
    if !env.mainConn then ⟨db1, [], 0, .dbFail⟩
    else
      let existing_count := get_existing_count db1 city
      let existing_names := get_existing_names db1
      if !env.searchOk then ⟨db1, [.search], 0, .searchFail⟩
      else if env.initialCards = 0 then ⟨db1, [.search, .scroll], 0, .noCards⟩
      else
        let (s, k) := phase1Loop city env.events
          ⟨db1, existing_names, existing_count, 0, 0, [.search, .scroll]⟩
        match k with
        | .crashed => ⟨s.db, s.trace, s.scraped, .loopExit .crashed⟩
        | k =>
          ⟨mark_phase_completed env.completeConn s.db city .phase1,
            s.trace, s.scraped, .loopExit k⟩

/-! ## Phase 2 pricing extraction — `extract_pricing` (GNB.py lines 918-945)

The regex `\$\d+(?:,\d{3})*(?:\.\d{2})?` contains only greedy, mutually
non-interfering pieces, so Python's `re.findall` over the page text equals
a left-to-right maximal-munch scan; the scan below consumes at least one
character per step, so the text length is a sufficient iteration budget. -/

/-- Greedy match of `(?:,\d{3})*`: repeatedly consume a comma followed by
exactly three digits, returning the consumed characters and the rest. -/
def priceGroups : List Char → List Char × List Char
  | ',' :: a :: b :: c :: rest =>
    if a.isDigit && b.isDigit && c.isDigit then
      let (g, r) := priceGroups rest
      (',' :: a :: b :: c :: g, r)
    else ([], ',' :: a :: b :: c :: rest)
  | l => ([], l)

/-- Greedy match of `(?:\.\d{2})?`: consume a dot followed by exactly two
digits when present. -/
def priceDecimal : List Char → List Char × List Char
  | '.' :: a :: b :: rest =>
    if a.isDigit && b.isDigit then (['.', a, b], rest)
    else ([], '.' :: a :: b :: rest)
  | l => ([], l)

/-- Match `\d+(?:,\d{3})*(?:\.\d{2})?` at the head of `l` (the part after
the dollar sign); `none` when no digit follows. -/
def matchPrice (l : List Char) : Option (List Char × List Char) :=
  let ds := l.takeWhile Char.isDigit
  if ds.isEmpty then none
  else
    let (g, r2) := priceGroups (l.drop ds.length)
    let (d, r3) := priceDecimal r2
    some (ds ++ g ++ d, r3)

/-- Left-to-right non-overlapping scan of `re.findall`: at a `'$'` try to
match a price and continue after it, otherwise advance one character. -/
def findPricesAux : Nat → List Char → List String
  | 0, _ => []
  | _ + 1, [] => []
  | fuel + 1, c :: rest =>
    if c = '$' then
      match matchPrice rest with
      | some (m, r3) => (⟨'$' :: m⟩ : String) :: findPricesAux fuel r3
      | none => findPricesAux fuel rest
    else findPricesAux fuel rest

/-- All currency matches in the page text, in order of occurrence. -/
def findPrices (s : String) : List String := findPricesAux s.data.length s.data

/-- Python `str.strip()`: drop whitespace from both ends. -/
def strip (s : String) : String :=
  ⟨((s.data.dropWhile Char.isWhitespace).reverse.dropWhile Char.isWhitespace).reverse⟩

/-- Python slicing `t[:200]`. -/
def takeN (n : Nat) (s : String) : String := ⟨s.data.take n⟩

/-- Python `sep.join(xs)`. -/
def joinSep (sep : String) : List String → String
  | [] => ""
  | [x] => x
  | x :: y :: rest => x ++ sep ++ joinSep sep (y :: rest)

/-- The `'; '.join(...) or 'N/A'` idiom of `run_phase2_for_city`
(GNB.py lines 1187-1188): an empty joined string falls back to the
sentinel. -/
def joinOrNA (xs : List String) : String :=
  let j := joinSep "; " xs
  if j = "" then "N/A" else j

/-- Environment for `extract_pricing` on a page whose body text was read
successfully: the text itself, and — per price string — the textContent of
the parent of the first element containing it (`none` when no element was
found or when reading the parent raised, in which case the code appends
the bare price). -/
structure PricingEnv where
  pageText : String
  parentText : String → Option String

/-- Embedding of `extract_pricing` (GNB.py lines 918-945) for a successful
body-text read.  `list(set(prices[:10]))` is modelled as an
order-preserving dedup: Python's set order is arbitrary and nothing
downstream depends on it.  When currency matches exist, each unique match
contributes one entry: the first 200 characters of its ancestor's text,
stripped, or the bare match; otherwise a keyword heuristic produces one
fallback phrase. -/
def extract_pricing (env : PricingEnv) : List String :=
  let prices := findPrices env.pageText
  if prices ≠ [] then
    let unique := (prices.take 10).dedup
    let result := unique.map (fun price =>
      match env.parentText price with
      | some t => strip (takeN 200 t)
      | none => price)
    if result ≠ [] then result else ["Prices found - see website"]
  else
    let ptl := lowerS env.pageText
    if containsSub "pricing" ptl || containsSub "packages" ptl ||
        containsSub "rates" ptl || containsSub "cost" ptl then
      ["Pricing page available - visit website"]
    else if containsSub "contact" ptl && containsSub "quote" ptl then
      ["Contact for quote"]
    else ["Contact business for estimate"]

/-! ## Lemmas: scroller bound -/

/-- The scroll loop never executes more iterations than its fuel. -/
theorem scrollLoop_le_fuel (env : ScrollEnv) (target : Nat) :
    ∀ fuel attempt lc st, scrollLoop env target fuel attempt lc st ≤ fuel := by
  intro fuel
  induction fuel with
  | zero => intro a l s; simp [scrollLoop]
  | succ n ih =>
    intro a l s
    simp only [scrollLoop]
    have h : ∀ x : Nat, x ≤ n → 1 + x ≤ n + 1 := fun x hx => by omega
    apply h
    split
    · exact Nat.zero_le n
    · split
      · exact Nat.zero_le n
      · split
        · exact ih _ _ _
        · split
          · split
            · exact Nat.zero_le n
            · exact ih _ _ _
          · exact ih _ _ _

/-- C6: `scroll_results_container` terminates for every target count — it
is a total function whose scroll loop executes at most 300 attempts, a
missing container or a run that never reaches the target is a normal
return, and the attempt cap is never exceeded. -/
theorem scroll_results_container_attempt_cap (env : ScrollEnv) (target : Nat) :
    scroll_results_container env target ≤ 300 := by
  unfold scroll_results_container
  split
  · exact Nat.zero_le 300
  · exact scrollLoop_le_fuel env target 300 0 env.initialCount 0

/-! ## Lemmas: URL normalization -/

/-- Nothing survives `takeUntilComma` that is a comma. -/
theorem takeUntilComma_no_comma : ∀ l : List Char, ',' ∉ takeUntilComma l := by
  intro l
  induction l with
  | nil => simp [takeUntilComma]
  | cons c rest ih =>
    simp only [takeUntilComma]
    split
    · simp
    · intro hmem
      rcases List.mem_cons.mp hmem with h | h
      · exact absurd h.symm (by assumption)
      · exact ih h

/-- Stripping trailing slashes only removes characters. -/
theorem mem_dropTrailingSlashL {c : Char} {l : List Char}
    (h : c ∈ dropTrailingSlashL l) : c ∈ l := by
  unfold dropTrailingSlashL at h
  rw [List.mem_reverse] at h
  have hs := (List.dropWhile_sublist (l := l.reverse) (p := (· = '/'))).subset h
  exact List.mem_reverse.mp hs

/-- The head of `dropWhile (· = '/')` is never a slash. -/
theorem head_dropWhile_slash :
    ∀ l : List Char, (l.dropWhile (· = '/')).head? ≠ some '/' := by
  intro l
  induction l with
  | nil => simp [List.dropWhile]
  | cons a rest ih =>
    simp only [List.dropWhile]
    split
    · exact ih
    · simp only [List.head?_cons, ne_eq, Option.some.injEq]
      intro hEq
      subst hEq
      simp_all

/-- A slash-stripped list never ends with a slash. -/
theorem dropTrailingSlashL_getLast :
    ∀ l : List Char, (dropTrailingSlashL l).getLast? ≠ some '/' := by
  intro l
  unfold dropTrailingSlashL
  rw [List.getLast?_reverse]
  exact head_dropWhile_slash l.reverse

/-- A list starts with itself followed by anything. -/
theorem startsL_append_self (q x : List Char) : startsL q (q ++ x) = true := by
  unfold startsL
  rw [List.isPrefixOf_iff_prefix]
  exact List.prefix_append q x

/-- Cons-form restatement of `startsL_append_self` for "https://". -/
theorem startsL_https_cons (x : List Char) :
    startsL ['h', 't', 't', 'p', 's', ':', '/', '/']
      ('h' :: 't' :: 't' :: 'p' :: 's' :: ':' :: '/' :: '/' :: x) = true :=
  startsL_append_self "https://".data x

/-- "https:" is a prefix of "https://" followed by anything. -/
theorem startsL_https_prefix (t : List Char) :
    startsL "https:".data ("https://".data ++ t) = true := by
  unfold startsL
  rw [List.isPrefixOf_iff_prefix]
  have h1 : "https:".data <+: "https://".data :=
    List.isPrefixOf_iff_prefix.mp (by decide)
  exact h1.trans (List.prefix_append _ t)

/-- Stripping a trailing slash character is absorbed. -/
theorem dropTrailingSlashL_append_slash (m : List Char) :
    dropTrailingSlashL (m ++ ['/']) = dropTrailingSlashL m := by
  unfold dropTrailingSlashL
  simp [List.dropWhile]

/-- Appending a non-slash character makes the strip a no-op. -/
theorem dropTrailingSlashL_append_ne (m : List Char) (c : Char) (hc : ¬c = '/') :
    dropTrailingSlashL (m ++ [c]) = m ++ [c] := by
  unfold dropTrailingSlashL
  simp [List.dropWhile, hc]

/-- Slash-stripping an "https://"-prefixed list keeps at least "https:". -/
theorem startsL_https_dropTrailing :
    ∀ rest : List Char,
      startsL "https:".data (dropTrailingSlashL ("https://".data ++ rest)) = true := by
  intro rest
  induction rest using List.reverseRecOn with
  | nil => decide
  | append_singleton l c ih =>
    rw [← List.append_assoc]
    by_cases hc : c = '/'
    · subst hc
      rw [dropTrailingSlashL_append_slash]
      exact ih
    · rw [dropTrailingSlashL_append_ne _ _ hc, List.append_assoc]
      exact startsL_https_prefix _

/-- Shape of `cleanChars`: either the sentinel, or the slash-strip of an
"https://"-prefixed list whose tail's characters all come from the part of
the input before the first comma. -/
theorem cleanChars_shape (l0 : List Char) :
    cleanChars l0 = "N/A".data ∨
    ∃ t, cleanChars l0 = dropTrailingSlashL ("https://".data ++ t) ∧
      ∀ c ∈ t, c ∈ takeUntilComma l0 := by
  simp only [cleanChars]
  split
  · exact Or.inl rfl
  · right
    by_cases h1 : startsL "http://".data (takeUntilComma l0) = true
    · refine ⟨(takeUntilComma l0).drop 7, ?_, fun c hc => List.drop_subset _ _ hc⟩
      simp [h1, startsL_https_cons]
    · by_cases h2 : startsL "https://".data (takeUntilComma l0) = true
      · refine ⟨(takeUntilComma l0).drop ("https://".data.length), ?_,
          fun c hc => List.drop_subset _ _ hc⟩
        have heq : "https://".data ++ (takeUntilComma l0).drop ("https://".data.length)
            = takeUntilComma l0 := by
          have hp := List.isPrefixOf_iff_prefix.mp h2
          have htake := List.prefix_iff_eq_take.mp hp
          conv_rhs =>
            rw [← List.take_append_drop ("https://".data.length) (takeUntilComma l0),
              ← htake]
        rw [heq]
        simp [h1, h2]
      · refine ⟨takeUntilComma l0, ?_, fun c hc => hc⟩
        simp [h1, h2]

/-- The google-marker rule of `clean_and_validate_url`, stated on the part
of the URL before the first comma (which is what the code inspects). -/
theorem clean_url_google_rule (url : String)
    (h : containsSub "google.com/maps" (beforeComma url) = true ∨
      containsSub "google.com/url" (beforeComma url) = true) :
    clean_and_validate_url url = "N/A" := by
  unfold clean_and_validate_url
  split
  · rfl
  · show (⟨cleanChars url.data⟩ : String) = "N/A"
    unfold cleanChars
    have hcond :
        (containsSubL "google.com/url".data (takeUntilComma url.data) ||
          containsSubL "google.com/maps".data (takeUntilComma url.data)) = true := by
      rcases h with h | h
      · simp only [containsSub, beforeComma] at h
        simp [h]
      · simp only [containsSub, beforeComma] at h
        simp [h]
    simp only [hcond, if_true]

/-- Normalized URLs contain no comma: only the part of the input before
the first comma survives. -/
theorem clean_url_no_comma (url : String) :
    ',' ∉ (clean_and_validate_url url).data := by
  unfold clean_and_validate_url
  split
  · decide
  · show ',' ∉ (⟨cleanChars url.data⟩ : String).data
    rcases cleanChars_shape url.data with h | ⟨t, ht, hsub⟩
    · show ',' ∉ cleanChars url.data
      rw [h]; decide
    · show ',' ∉ cleanChars url.data
      rw [ht]
      intro hmem
      rcases List.mem_append.mp (mem_dropTrailingSlashL hmem) with h1 | h2
      · revert h1; decide
      · exact takeUntilComma_no_comma url.data (hsub _ h2)

/-- A normalized URL never begins with "http://": the insecure scheme is
always rewritten or overwritten. -/
theorem clean_url_not_http (url : String) :
    startsL "http://".data (clean_and_validate_url url).data = false := by
  unfold clean_and_validate_url
  split
  · decide
  · show startsL "http://".data (cleanChars url.data) = false
    rcases cleanChars_shape url.data with h | ⟨t, ht, _⟩
    · rw [h]; decide
    · rw [ht]
      have hs := startsL_https_dropTrailing t
      by_contra hcon
      rw [Bool.not_eq_false] at hcon
      have h6 := List.prefix_iff_eq_take.mp (List.isPrefixOf_iff_prefix.mp hs)
      have h7 := List.prefix_iff_eq_take.mp (List.isPrefixOf_iff_prefix.mp hcon)
      rw [show ("https:".data).length = 6 from rfl] at h6
      rw [show ("http://".data).length = 7 from rfl] at h7
      have hkey : "https:".data = ("http://".data).take 6 := by
        rw [h6, h7, List.take_take]
        norm_num
      revert hkey; decide

/-- A normalized URL never ends with a slash. -/
theorem clean_url_no_trailing_slash (url : String) :
    (clean_and_validate_url url).data.getLast? ≠ some '/' := by
  unfold clean_and_validate_url
  split
  · decide
  · show (cleanChars url.data).getLast? ≠ some '/'
    rcases cleanChars_shape url.data with h | ⟨t, ht, _⟩
    · rw [h]; decide
    · rw [ht]
      exact dropTrailingSlashL_getLast _

/-- Every `extract_website` output is the sentinel or a normalized URL. -/
theorem extract_website_shape (hrefs : List (Option String)) :
    extract_website hrefs = "N/A" ∨
    ∃ h, extract_website hrefs = clean_and_validate_url h := by
  induction hrefs with
  | nil => exact Or.inl rfl
  | cons o rest ih =>
    cases o with
    | none => simpa [extract_website] using ih
    | some h =>
      simp only [extract_website]
      split
      · exact Or.inr ⟨h, rfl⟩
      · exact ih

/-- C7 counterexample: `clean_and_validate_url` splits on the comma
before it looks for the map-application markers, so a URL that contains
`google.com/maps` only after a comma is not mapped to the sentinel —
refuting the claim that ANY url containing the marker maps to "N/A". -/
theorem clean_url_google_after_comma_not_sentinel :
    containsSub "google.com/maps" "http://a.com,google.com/maps" = true ∧
    clean_and_validate_url "http://a.com,google.com/maps" = "https://a.com" ∧
    clean_and_validate_url "http://a.com,google.com/maps" ≠ "N/A" := by
  refine ⟨by decide, by decide, by decide⟩

/-- C7 (amended): `clean_and_validate_url` maps "http://example.com/" to
"https://example.com", maps the scheme-less "example.com" to
"https://example.com", and maps a URL whose part before the first comma
contains `google.com/maps` or `google.com/url` to the sentinel "N/A". -/
theorem clean_url_examples_and_google_rule :
    clean_and_validate_url "http://example.com/" = "https://example.com" ∧
    clean_and_validate_url "example.com" = "https://example.com" ∧
    ∀ url : String,
      (containsSub "google.com/maps" (beforeComma url) = true ∨
       containsSub "google.com/url" (beforeComma url) = true) →
      clean_and_validate_url url = "N/A" :=
  ⟨by decide, by decide, fun url h => clean_url_google_rule url h⟩

/-- C7 witness: the amended google rule applied to a concrete map link. -/
theorem clean_url_google_rule_witness :
    clean_and_validate_url "https://www.google.com/maps/place/x" = "N/A" :=
  clean_url_examples_and_google_rule.2.2 "https://www.google.com/maps/place/x"
    (Or.inl (by decide))

/-- C8 counterexample: the normalization does not strip query strings —
an extracted website link whose URL carries a query string is returned
with the query string intact, refuting the claim that the returned URL
never contains one. -/
theorem extract_website_keeps_query_string :
    extract_website [some "https://example.com/page?q=1"] =
      "https://example.com/page?q=1" ∧
    containsSub "?q=1" (extract_website [some "https://example.com/page?q=1"]) = true := by
  refine ⟨by decide, by decide⟩

/-- C8 (amended): for every extracted website link, a candidate href
containing `google.com/maps` is skipped, and a URL whose part before the
first comma contains a map-application marker is mapped to the sentinel;
the returned URL never begins with "http://" (the insecure scheme is
rewritten to https), never contains a comma (comma-separated trailing
siblings are stripped — query strings are not), and never ends with a
trailing slash. -/
theorem extract_website_normalized :
    (∀ (h : String) (rest : List (Option String)),
        containsSub "google.com/maps" h = true →
        extract_website (some h :: rest) = extract_website rest) ∧
    (∀ url : String,
        (containsSub "google.com/maps" (beforeComma url) = true ∨
         containsSub "google.com/url" (beforeComma url) = true) →
        clean_and_validate_url url = "N/A") ∧
    (∀ hrefs, startsL "http://".data (extract_website hrefs).data = false) ∧
    (∀ hrefs, ',' ∉ (extract_website hrefs).data) ∧
    (∀ hrefs, (extract_website hrefs).data.getLast? ≠ some '/') ∧
    extract_website [some "http://biz.example/site/"] = "https://biz.example/site" ∧
    extract_website [some "https://a.com,tracking"] = "https://a.com" := by
  refine ⟨?_, fun url h => clean_url_google_rule url h, ?_, ?_, ?_, by decide, by decide⟩
  · intro h rest hmaps
    simp [extract_website, hmaps]
  · intro hrefs
    rcases extract_website_shape hrefs with h | ⟨u, hu⟩
    · rw [h]; decide
    · rw [hu]; exact clean_url_not_http u
  · intro hrefs
    rcases extract_website_shape hrefs with h | ⟨u, hu⟩
    · rw [h]; decide
    · rw [hu]; exact clean_url_no_comma u
  · intro hrefs
    rcases extract_website_shape hrefs with h | ⟨u, hu⟩
    · rw [h]; decide
    · rw [hu]; exact clean_url_no_trailing_slash u

/-- C8 witness: the map-application skip rule applied to concrete hrefs. -/
theorem extract_website_normalized_witness :
    extract_website [some "https://www.google.com/maps/place/p", some "http://biz.example/"] =
      extract_website [some "http://biz.example/"] :=
  extract_website_normalized.1 "https://www.google.com/maps/place/p"
    [some "http://biz.example/"] (by decide)

/-! ## Lemmas: lead-table persistence -/

/-- Uniqueness of the (City, Name) composite key across the lead table,
the invariant of the table's UNIQUE KEY. -/
def UniqueLeadKeys (l : List LeadRow) : Prop :=
  l.Pairwise (fun a b => ¬(a.city = b.city ∧ a.name = b.name))

/-- C3: inserting a lead whose (city, name) pair already exists leaves the
table unchanged and returns false (success-equivalent, no exception since
all error paths return false), and every insert preserves the (city, name)
uniqueness of the table. -/
theorem save_duplicate_noop_and_unique :
    ∀ (db : DB) (city name rating address phone website timings at_ : String),
    (check_duplicate db.leads city name = true →
      save_google_maps_data true db city name rating address phone website timings at_
        = (db, false)) ∧
    (UniqueLeadKeys db.leads →
      UniqueLeadKeys
        (save_google_maps_data true db city name rating address phone website timings at_).1.leads) := by
  intro db city name rating address phone website timings at_
  constructor
  · intro hdup
    simp [save_google_maps_data, hdup]
  · intro huniq
    by_cases hdup : check_duplicate db.leads city name = true
    · simpa [save_google_maps_data, hdup] using huniq
    · have hdup' : check_duplicate db.leads city name = false :=
        Bool.not_eq_true _ ▸ hdup
      simp only [save_google_maps_data, Bool.not_true, Bool.false_eq_true, if_false,
        hdup']
      unfold UniqueLeadKeys at huniq ⊢
      rw [List.pairwise_append]
      refine ⟨huniq, List.pairwise_singleton _ _, ?_⟩
      intro a ha b hb
      rw [List.mem_singleton] at hb
      subst hb
      rintro ⟨hc, hn⟩
      unfold check_duplicate at hdup'
      rw [List.any_eq_false] at hdup'
      have := hdup' a ha
      simp [hc, hn] at this

/-- C3 witness: a concrete duplicate insert is a no-op that keeps the
key-uniqueness of a one-row table. -/
theorem save_duplicate_noop_witness :
    save_google_maps_data true
        ⟨[⟨"Reno", "Joe Shine", "4.7", "1 Main St", "5550123456",
           "https://joeshine.com", "Mon: 9-5", "N/A", "N/A", "N/A", "t0"⟩],
          fun _ _ => none⟩
        "Reno" "Joe Shine" "4.5" "2 Oak Ave" "5550000000" "N/A" "N/A" "t1"
      = (⟨[⟨"Reno", "Joe Shine", "4.7", "1 Main St", "5550123456",
           "https://joeshine.com", "Mon: 9-5", "N/A", "N/A", "N/A", "t0"⟩],
          fun _ _ => none⟩, false) ∧
    UniqueLeadKeys (save_google_maps_data true
        ⟨[⟨"Reno", "Joe Shine", "4.7", "1 Main St", "5550123456",
           "https://joeshine.com", "Mon: 9-5", "N/A", "N/A", "N/A", "t0"⟩],
          fun _ _ => none⟩
        "Reno" "Joe Shine" "4.5" "2 Oak Ave" "5550000000" "N/A" "N/A" "t1").1.leads := by
  have h := save_duplicate_noop_and_unique
    ⟨[⟨"Reno", "Joe Shine", "4.7", "1 Main St", "5550123456",
       "https://joeshine.com", "Mon: 9-5", "N/A", "N/A", "N/A", "t0"⟩],
      fun _ _ => none⟩
    "Reno" "Joe Shine" "4.5" "2 Oak Ave" "5550000000" "N/A" "N/A" "t1"
  exact ⟨h.1 (by decide), h.2 (by simp [UniqueLeadKeys])⟩

/-- The listing (non-enrichment) columns of a lead row. -/
def listing (r : LeadRow) : List String :=
  [r.city, r.name, r.rating, r.address, r.phone, r.website, r.timings, r.scraped_at]

/-- C5: `update_website_data` writes only the three enrichment columns —
every listing column of every row, and the progress table, are unchanged —
performs the update only when at least one supplied value is non-default
(all-sentinel input returns false with no write), and every row
`save_google_maps_data` inserts has all three enrichment columns set to
the sentinel. -/
theorem update_only_enrichment :
    ∀ (db : DB)
      (city name logo_url services pricing rating address phone website timings at_ : String),
    (logo_url = "N/A" ∧ services = "N/A" ∧ pricing = "N/A" →
      update_website_data true db city name logo_url services pricing = (db, false)) ∧
    ((update_website_data true db city name logo_url services pricing).1.leads.map listing
      = db.leads.map listing) ∧
    ((update_website_data true db city name logo_url services pricing).1.progress
      = db.progress) ∧
    (∀ r ∈ (save_google_maps_data true db city name rating address phone website
        timings at_).1.leads,
      r ∈ db.leads ∨ (r.logo_url = "N/A" ∧ r.services = "N/A" ∧ r.pricing = "N/A")) := by
  intro db city name logo_url services pricing rating address phone website timings at_
  refine ⟨?_, ?_, ?_, ?_⟩
  · rintro ⟨h1, h2, h3⟩
    simp [update_website_data, h1, h2, h3]
  · unfold update_website_data
    split
    · rfl
    · split
      · rfl
      · split
        · show (db.leads.map _).map listing = db.leads.map listing
          rw [List.map_map]
          apply List.map_congr_left
          intro r _
          show listing (if r.city = city ∧ r.name = name then _ else r) = listing r
          split
          · rfl
          · rfl
        · rfl
  · unfold update_website_data
    split
    · rfl
    · split
      · rfl
      · split
        · rfl
        · rfl
  · intro r hr
    unfold save_google_maps_data at hr
    rw [if_neg (by simp)] at hr
    split at hr
    · exact Or.inl hr
    · rcases List.mem_append.mp hr with h | h
      · exact Or.inl h
      · rw [List.mem_singleton] at h
        subst h
        exact Or.inr ⟨rfl, rfl, rfl⟩

/-- The spec's wording of the Phase 2 candidate condition: a lead of the
city whose website is a real http(s) URL (non-sentinel and http-prefixed)
and whose three enrichment fields are all still the sentinel. -/
def phase2Candidate (r : LeadRow) (city : String) : Prop :=
  r.city = city ∧ r.website ≠ "N/A" ∧ startsL "http".data r.website.data = true ∧
  r.logo_url = "N/A" ∧ r.services = "N/A" ∧ r.pricing = "N/A"

/-- Membership in the Phase 2 candidate query is exactly the spec's
candidate condition. -/
theorem mem_get_leads_iff (db : DB) (city n w : String) :
    (n, w) ∈ get_leads_with_websites db city ↔
    ∃ r ∈ db.leads, phase2Candidate r city ∧ r.name = n ∧ r.website = w := by
  unfold get_leads_with_websites phase2Candidate
  simp only [List.mem_map, List.mem_filter, Bool.and_eq_true, decide_eq_true_eq,
    Prod.mk.injEq, bne_iff_ne, ne_eq]
  constructor
  · rintro ⟨r, ⟨hmem, ⟨⟨⟨⟨⟨hc, hw⟩, hh⟩, hl⟩, hs⟩, hp⟩⟩, hn, hweb⟩
    exact ⟨r, hmem, ⟨hc, hw, hh, hl, hs, hp⟩, hn, hweb⟩
  · rintro ⟨r, hmem, ⟨hc, hw, hh, hl, hs, hp⟩, hn, hweb⟩
    exact ⟨r, ⟨hmem, ⟨⟨⟨⟨⟨hc, hw⟩, hh⟩, hl⟩, hs⟩, hp⟩⟩, hn, hweb⟩

/-- After a successful enrichment update for (city, n), the lead named n
no longer satisfies the candidate query for that city. -/
theorem update_true_excludes (db : DB) (city n w logo services pricing : String)
    (hupd : (update_website_data true db city n logo services pricing).2 = true) :
    (n, w) ∉ get_leads_with_websites
      (update_website_data true db city n logo services pricing).1 city := by
  by_cases hguard : logo = "N/A" ∧ services = "N/A" ∧ pricing = "N/A"
  · rw [update_website_data, if_pos hguard] at hupd
    simp at hupd
  · by_cases hany : (db.leads.any fun r =>
        r.city = city && r.name = n &&
        (r.logo_url ≠ logo || r.services ≠ services || r.pricing ≠ pricing)) = true
    · have hout : (update_website_data true db city n logo services pricing).1
          = { db with
                leads := db.leads.map (fun r =>
                  if r.city = city ∧ r.name = n then
                    { r with logo_url := logo, services := services, pricing := pricing }
                  else r) } := by
        rw [update_website_data, if_neg hguard, if_neg (by simp), if_pos hany]
      rw [hout]
      intro hmem
      obtain ⟨r, hr, hcand, hname, hweb⟩ := (mem_get_leads_iff _ city n w).mp hmem
      obtain ⟨r0, hr0, hfr0⟩ := List.mem_map.mp hr
      by_cases hcase : r0.city = city ∧ r0.name = n
      · rw [if_pos hcase] at hfr0
        subst hfr0
        exact hguard ⟨hcand.2.2.2.1, hcand.2.2.2.2.1, hcand.2.2.2.2.2⟩
      · rw [if_neg hcase] at hfr0
        subst hfr0
        exact hcase ⟨hcand.1, hname⟩
    · rw [update_website_data, if_neg hguard, if_neg (by simp), if_neg hany] at hupd
      simp at hupd

/-- A candidate lead combined with a non-sentinel pricing value makes the
enrichment update succeed: some matching row changes, so the UPDATE
commits and returns true. -/
theorem candidate_update_succeeds (db : DB) (city n w logo services pricing : String)
    (hp : pricing ≠ "N/A")
    (hmem : (n, w) ∈ get_leads_with_websites db city) :
    (update_website_data true db city n logo services pricing).2 = true := by
  obtain ⟨r, hr, hcand, hname, hweb⟩ := (mem_get_leads_iff db city n w).mp hmem
  unfold update_website_data
  rw [if_neg (fun h => hp h.2.2)]
  rw [if_neg (by simp)]
  have hany : (db.leads.any fun r =>
      r.city = city && r.name = n &&
      (r.logo_url ≠ logo || r.services ≠ services || r.pricing ≠ pricing)) = true := by
    rw [List.any_eq_true]
    refine ⟨r, hr, ?_⟩
    have hpr : r.pricing ≠ pricing := by
      rw [hcand.2.2.2.2.2]
      exact fun h => hp h.symm
    simp [hcand.1, hname, hpr]
  rw [if_pos hany]

/-- C4: `get_leads_with_websites` returns exactly the city's leads whose
website is a real http(s) URL (non-sentinel, http-prefixed) with all three
enrichment fields still the sentinel, and after a successful
`update_website_data` for such a lead the re-run query for that city no
longer returns it. -/
theorem get_leads_exact_and_update_excludes :
    ∀ (db : DB) (city n w logo services pricing : String),
    ((n, w) ∈ get_leads_with_websites db city ↔
      ∃ r ∈ db.leads, phase2Candidate r city ∧ r.name = n ∧ r.website = w) ∧
    ((n, w) ∈ get_leads_with_websites db city →
      (update_website_data true db city n logo services pricing).2 = true →
      (n, w) ∉ get_leads_with_websites
        (update_website_data true db city n logo services pricing).1 city) :=
  fun db city n w logo services pricing =>
    ⟨mem_get_leads_iff db city n w,
      fun _ hupd => update_true_excludes db city n w logo services pricing hupd⟩

/-- C4 witness: a concrete candidate lead is returned by the query and
disappears from it after a successful enrichment update. -/
theorem get_leads_update_excludes_witness :
    (("Joe Shine", "https://joeshine.com") ∈ get_leads_with_websites
        ⟨[⟨"Reno", "Joe Shine", "4.7", "1 Main St", "5550123456",
           "https://joeshine.com", "Mon: 9-5", "N/A", "N/A", "N/A", "t0"⟩],
          fun _ _ => none⟩ "Reno") ∧
    (("Joe Shine", "https://joeshine.com") ∉ get_leads_with_websites
        (update_website_data true
          ⟨[⟨"Reno", "Joe Shine", "4.7", "1 Main St", "5550123456",
             "https://joeshine.com", "Mon: 9-5", "N/A", "N/A", "N/A", "t0"⟩],
            fun _ _ => none⟩
          "Reno" "Joe Shine" "https://joeshine.com/logo.png" "N/A" "N/A").1 "Reno") := by
  refine ⟨by decide, ?_⟩
  exact (get_leads_exact_and_update_excludes
      ⟨[⟨"Reno", "Joe Shine", "4.7", "1 Main St", "5550123456",
         "https://joeshine.com", "Mon: 9-5", "N/A", "N/A", "N/A", "t0"⟩],
        fun _ _ => none⟩
      "Reno" "Joe Shine" "https://joeshine.com"
      "https://joeshine.com/logo.png" "N/A" "N/A").2 (by decide) (by decide)

/-- C5 witness: the all-sentinel update on a concrete table is refused. -/
theorem update_only_enrichment_witness :
    update_website_data true
        ⟨[⟨"Reno", "Joe Shine", "4.7", "1 Main St", "5550123456",
           "https://joeshine.com", "Mon: 9-5", "N/A", "N/A", "N/A", "t0"⟩],
          fun _ _ => none⟩
        "Reno" "Joe Shine" "N/A" "N/A" "N/A"
      = (⟨[⟨"Reno", "Joe Shine", "4.7", "1 Main St", "5550123456",
           "https://joeshine.com", "Mon: 9-5", "N/A", "N/A", "N/A", "t0"⟩],
          fun _ _ => none⟩, false) :=
  (update_only_enrichment
    ⟨[⟨"Reno", "Joe Shine", "4.7", "1 Main St", "5550123456",
       "https://joeshine.com", "Mon: 9-5", "N/A", "N/A", "N/A", "t0"⟩],
      fun _ _ => none⟩
    "Reno" "Joe Shine" "N/A" "N/A" "N/A" "" "" "" "" "" "").1 ⟨rfl, rfl, rfl⟩

/-! ## Lemmas: Phase 1 control flow -/

/-- Inserting a lead never touches the progress table. -/
theorem save_progress_frame (c : Bool) (db : DB)
    (city name rating address phone website timings at_ : String) :
    (save_google_maps_data c db city name rating address phone website timings at_).1.progress
      = db.progress := by
  unfold save_google_maps_data
  split
  · rfl
  · split
    · rfl
    · rfl

/-- The Phase 1 loop never touches the progress table: its only database
write is the lead insert. -/
theorem phase1Loop_progress_frame (city : String) :
    ∀ (evs : List Ev) (s : LoopState),
      ((phase1Loop city evs s).1).db.progress = s.db.progress := by
  intro evs
  induction evs with
  | nil =>
    intro s
    unfold phase1Loop
    split
    · rfl
    · rfl
  | cons ev rest ih =>
    intro s
    unfold phase1Loop
    split
    · rfl
    · cases ev with
      | signin recovered =>
        cases recovered
        · rfl
        · exact ih _
      | exhausted => rfl
      | skip => exact ih _
      | card d saveConn =>
        simp only []
        split
        · exact ih _
        · split
          · exact ih _
          · rcases hsv : save_google_maps_data saveConn s.db city d.name d.rating
                d.address d.phone d.website d.timings d.scraped_at with ⟨db', b⟩
            have hdb' : db'.progress = s.db.progress := by
              have := save_progress_frame saveConn s.db city d.name d.rating
                d.address d.phone d.website d.timings d.scraped_at
              rw [hsv] at this
              exact this
            cases b
            · rw [ih _]
              exact hdb'
            · rw [ih _]
              exact hdb'
      | fail signinAfter handled =>
        rcases hsh : signinAfter && handled with _ | _
        · simp only [hsh, Bool.false_eq_true, if_false]
          exact ih _
        · simp only [hsh, if_true]
          exact ih _

/-- The Phase 1 loop only appends to the browser-action trace. -/
theorem phase1Loop_trace_mono (city : String) :
    ∀ (evs : List Ev) (s : LoopState),
      ∃ t, ((phase1Loop city evs s).1).trace = s.trace ++ t := by
  intro evs
  induction evs with
  | nil =>
    intro s
    unfold phase1Loop
    split
    · exact ⟨[], by simp⟩
    · exact ⟨[], by simp⟩
  | cons ev rest ih =>
    intro s
    unfold phase1Loop
    split
    · exact ⟨[], by simp⟩
    · cases ev with
      | signin recovered =>
        cases recovered
        · exact ⟨[], by simp⟩
        · obtain ⟨t, ht⟩ := ih { s with idx := 0, trace := s.trace ++ [.scroll] }
          exact ⟨[.scroll] ++ t, by simp [ht]⟩
      | exhausted => exact ⟨[.scroll], rfl⟩
      | skip =>
        obtain ⟨t, ht⟩ := ih { s with idx := s.idx + 1 }
        exact ⟨t, ht⟩
      | card d saveConn =>
        simp only []
        split
        · obtain ⟨t, ht⟩ := ih
            { s with idx := s.idx + 1, trace := s.trace ++ [.extract] }
          exact ⟨[.extract] ++ t, by simp [ht]⟩
        · split
          · obtain ⟨t, ht⟩ := ih
              { s with idx := s.idx + 1, trace := s.trace ++ [.extract] }
            exact ⟨[.extract] ++ t, by simp [ht]⟩
          · rcases hsv : save_google_maps_data saveConn s.db city d.name d.rating
                d.address d.phone d.website d.timings d.scraped_at with ⟨db', b⟩
            cases b
            · obtain ⟨t, ht⟩ := ih
                { s with db := db', idx := s.idx + 1, trace := s.trace ++ [.extract] }
              exact ⟨[.extract] ++ t, by simp [ht]⟩
            · obtain ⟨t, ht⟩ := ih
                { s with
                    db := db', names := (lowerS city, lowerS d.name) :: s.names,
                    scraped := s.scraped + 1, idx := s.idx + 1,
                    trace := s.trace ++ [.extract] }
              exact ⟨[.extract] ++ t, by simp [ht]⟩
      | fail signinAfter handled =>
        rcases hsh : signinAfter && handled with _ | _
        · simp only [hsh, Bool.false_eq_true, if_false]
          obtain ⟨t, ht⟩ := ih _
          exact ⟨t, ht⟩
        · simp only [hsh, if_true]
          obtain ⟨t, ht⟩ := ih
            { db := s.db, names := s.names, scraped := s.scraped,
              errors := s.errors + 1, idx := 1, trace := s.trace ++ [Action.scroll] }
          exact ⟨[.scroll] ++ t, by simp [ht]⟩

/-- C2: for a city whose phase1 progress record is completed (and whose
completion check can reach the database), `run_phase1_for_city` returns at
once: no search, scroll or extraction action happens, nothing is written,
and the whole database — every Lead row included — is unchanged. -/
theorem phase1_skips_completed_city :
    ∀ (env : Phase1Env) (db : DB) (city : String),
      env.checkConn = true → env.checkQuery = true →
      db.progress city .phase1 = some .completed →
      run_phase1_for_city env db city = ⟨db, [], 0, .skippedCompleted⟩ := by
  intro env db city hc hq hdone
  unfold run_phase1_for_city
  rw [if_pos]
  simp [is_phase_completed, hc, hq, hdone]

/-- C2 witness: a concrete completed city is skipped unchanged. -/
theorem phase1_skips_completed_city_witness :
    run_phase1_for_city ⟨true, true, true, true, true, 1, [.exhausted], true⟩
        ⟨[], fun c p => if c = "reno" ∧ p = .phase1 then some .completed else none⟩
        "reno"
      = ⟨⟨[], fun c p => if c = "reno" ∧ p = .phase1 then some .completed else none⟩,
          [], 0, .skippedCompleted⟩ :=
  phase1_skips_completed_city
    ⟨true, true, true, true, true, 1, [.exhausted], true⟩
    ⟨[], fun c p => if c = "reno" ∧ p = .phase1 then some .completed else none⟩
    "reno" rfl rfl (by simp)

/-- C9: whenever the completion check's own database connection fails or
its status query raises, `is_phase_completed` answers false for every
(city, phase); consequently, under a transient outage hitting exactly that
check, a city whose stored record is completed is re-entered by Phase 1 —
the run is not skipped, the record is overwritten to in_progress by the
start mark, and the city is searched again. -/
theorem phase_check_failure_reenters_city :
    (∀ (t : ProgressTable) (city : String) (ph : Phase) (q : Bool),
      is_phase_completed false q t city ph = false) ∧
    (∀ (t : ProgressTable) (city : String) (ph : Phase) (c : Bool),
      is_phase_completed c false t city ph = false) ∧
    (∀ (db : DB) (city : String) (ph : Phase),
      (mark_phase_started true db city ph).progress city ph = some .in_progress) ∧
    (∀ (env : Phase1Env) (db : DB) (city : String),
      env.checkConn = false → env.startConn = true → env.mainConn = true →
      db.progress city .phase1 = some .completed →
      (run_phase1_for_city env db city).exit ≠ .skippedCompleted ∧
      (mark_phase_started env.startConn db city .phase1).progress city .phase1
        = some .in_progress ∧
      .search ∈ (run_phase1_for_city env db city).trace) := by
  refine ⟨?_, ?_, ?_, ?_⟩
  · intro t city ph q
    simp [is_phase_completed]
  · intro t city ph c
    simp [is_phase_completed]
  · intro db city ph
    simp [mark_phase_started, upsertStatus]
  · intro env db city hc hs hm _
    have hstep :
        (mark_phase_started env.startConn db city .phase1).progress city .phase1
          = some .in_progress := by
      rw [hs]
      simp [mark_phase_started, upsertStatus]
    refine ⟨?_, hstep, ?_⟩
    · unfold run_phase1_for_city
      rw [if_neg (by simp [is_phase_completed, hc])]
      rw [hm]
      simp only [Bool.not_true, Bool.false_eq_true, if_false]
      split
      · intro h
        exact P1Exit.noConfusion h
      · split
        · intro h
          exact P1Exit.noConfusion h
        · rcases hsk : phase1Loop city env.events
            ⟨mark_phase_started env.startConn db city .phase1,
              get_existing_names (mark_phase_started env.startConn db city .phase1),
              get_existing_count (mark_phase_started env.startConn db city .phase1) city,
              0, 0, [.search, .scroll]⟩ with ⟨s', k⟩
          cases k
          · intro h; exact P1Exit.noConfusion h
          · intro h; exact P1Exit.noConfusion h
          · intro h; exact P1Exit.noConfusion h
          · intro h; exact P1Exit.noConfusion h
    · unfold run_phase1_for_city
      rw [if_neg (by simp [is_phase_completed, hc])]
      rw [hm]
      simp only [Bool.not_true, Bool.false_eq_true, if_false]
      split
      · simp
      · split
        · simp
        · rcases hsk : phase1Loop city env.events
            ⟨mark_phase_started env.startConn db city .phase1,
              get_existing_names (mark_phase_started env.startConn db city .phase1),
              get_existing_count (mark_phase_started env.startConn db city .phase1) city,
              0, 0, [.search, .scroll]⟩ with ⟨s', k⟩
          have htr := phase1Loop_trace_mono city env.events
            ⟨mark_phase_started env.startConn db city .phase1,
              get_existing_names (mark_phase_started env.startConn db city .phase1),
              get_existing_count (mark_phase_started env.startConn db city .phase1) city,
              0, 0, [.search, .scroll]⟩
          rw [hsk] at htr
          obtain ⟨t, ht⟩ := htr
          simp only [] at ht
          cases k <;> simp [ht]

/-- Environment of a run whose first loop iteration hits the sign-in
interstitial and whose recovery search fails; everything else is healthy. -/
def signinAbortEnv : Phase1Env := ⟨true, true, true, true, true, 1, [.signin false], true⟩

/-- A database with no leads and no progress rows. -/
def emptyDbC1 : DB := ⟨[], fun _ _ => none⟩

/-- C1 counterexample: when the sign-in interstitial is detected and the
recovery search fails, the loop `break`s and falls through to
`mark_phase_completed` — the city is persisted as completed although the
per-city cap was not reached and the entry list was not exhausted,
refuting "in no other case". -/
theorem phase1_signin_abort_marks_completed :
    (run_phase1_for_city signinAbortEnv emptyDbC1 "Reno").exit
      = .loopExit .signinAbort ∧
    (run_phase1_for_city signinAbortEnv emptyDbC1 "Reno").scraped
      < MAX_LEADS_PER_CITY ∧
    (run_phase1_for_city signinAbortEnv emptyDbC1 "Reno").db.progress "Reno" .phase1
      = some .completed := by
  refine ⟨by decide, by decide, by decide⟩

/-- C1 (amended): with working progress-mark connections,
`run_phase1_for_city` persists completed exactly when its scraping loop
ends normally — the per-city cap reached, the entry list exhausted, or an
unrecovered sign-in interstitial aborting the loop — and a run that ends
any other way (database or search failure, no cards, or a crash mid-loop)
leaves the city's phase1 record in_progress, so the city is re-attempted
on the next run. -/
theorem phase1_completion_marking :
    ∀ (env : Phase1Env) (db : DB) (city : String),
      env.startConn = true → env.completeConn = true →
      ((((run_phase1_for_city env db city).exit = .loopExit .capReached ∨
         (run_phase1_for_city env db city).exit = .loopExit .exhausted ∨
         (run_phase1_for_city env db city).exit = .loopExit .signinAbort) →
        (run_phase1_for_city env db city).db.progress city .phase1
          = some .completed) ∧
       (((run_phase1_for_city env db city).exit = .dbFail ∨
         (run_phase1_for_city env db city).exit = .searchFail ∨
         (run_phase1_for_city env db city).exit = .noCards ∨
         (run_phase1_for_city env db city).exit = .loopExit .crashed) →
        (run_phase1_for_city env db city).db.progress city .phase1
          = some .in_progress)) := by
  intro env db city hs hcmp
  unfold run_phase1_for_city
  rw [hs, hcmp]
  dsimp only
  split
  · constructor
    · rintro (h | h | h) <;> simp at h
    · rintro (h | h | h | h) <;> simp at h
  · split
    · constructor
      · rintro (h | h | h) <;> simp at h
      · intro _
        simp [mark_phase_started, upsertStatus]
    · split
      · constructor
        · rintro (h | h | h) <;> simp at h
        · intro _
          simp [mark_phase_started, upsertStatus]
      · split
        · constructor
          · rintro (h | h | h) <;> simp at h
          · intro _
            simp [mark_phase_started, upsertStatus]
        · rcases hsk : phase1Loop city env.events
            ⟨mark_phase_started true db city .phase1,
              get_existing_names (mark_phase_started true db city .phase1),
              get_existing_count (mark_phase_started true db city .phase1) city,
              0, 0, [.search, .scroll]⟩ with ⟨s', k⟩
          have hfr := phase1Loop_progress_frame city env.events
            ⟨mark_phase_started true db city .phase1,
              get_existing_names (mark_phase_started true db city .phase1),
              get_existing_count (mark_phase_started true db city .phase1) city,
              0, 0, [.search, .scroll]⟩
          rw [hsk] at hfr
          simp only [] at hfr
          cases k
          · constructor
            · intro _
              simp [mark_phase_completed, upsertStatus]
            · rintro (h | h | h | h) <;> simp at h
          · constructor
            · intro _
              simp [mark_phase_completed, upsertStatus]
            · rintro (h | h | h | h) <;> simp at h
          · constructor
            · intro _
              simp [mark_phase_completed, upsertStatus]
            · rintro (h | h | h | h) <;> simp at h
          · constructor
            · rintro (h | h | h) <;> simp at h
            · intro _
              rw [hfr]
              simp [mark_phase_started, upsertStatus]

/-- C1 witness: a run whose entry list is exhausted persists completed. -/
theorem phase1_completion_marking_witness :
    (run_phase1_for_city ⟨true, true, true, true, true, 1, [.exhausted], true⟩
        emptyDbC1 "Reno").db.progress "Reno" .phase1 = some .completed :=
  (phase1_completion_marking ⟨true, true, true, true, true, 1, [.exhausted], true⟩
      emptyDbC1 "Reno" rfl rfl).1 (Or.inr (Or.inl (by decide)))

/-- C9 witness: concrete outage at the check, healthy database afterwards —
the already-completed city is re-entered and searched again. -/
theorem phase_check_failure_reenters_city_witness :
    (run_phase1_for_city ⟨false, true, true, true, true, 1, [.exhausted], true⟩
        ⟨[], fun c p => if c = "reno" ∧ p = .phase1 then some .completed else none⟩
        "reno").exit ≠ .skippedCompleted ∧
    .search ∈ (run_phase1_for_city ⟨false, true, true, true, true, 1, [.exhausted], true⟩
        ⟨[], fun c p => if c = "reno" ∧ p = .phase1 then some .completed else none⟩
        "reno").trace := by
  have h := phase_check_failure_reenters_city.2.2.2
    ⟨false, true, true, true, true, 1, [.exhausted], true⟩
    ⟨[], fun c p => if c = "reno" ∧ p = .phase1 then some .completed else none⟩
    "reno" rfl rfl rfl (by simp)
  exact ⟨h.1, h.2.2⟩

/-! ## Lemmas: Phase 2 pricing -/

/-- Every string the price scan returns begins with a dollar sign. -/
theorem findPricesAux_dollar :
    ∀ (fuel : Nat) (l : List Char) (q : String),
      q ∈ findPricesAux fuel l → ∃ m, q = ⟨'$' :: m⟩ := by
  intro fuel
  induction fuel with
  | zero =>
    intro l q h
    simp [findPricesAux] at h
  | succ n ih =>
    intro l q h
    cases l with
    | nil => simp [findPricesAux] at h
    | cons c rest =>
      simp only [findPricesAux] at h
      split at h
      · rcases hmp : matchPrice rest with _ | ⟨m, r3⟩
        · simp only [hmp] at h
          exact ih rest q h
        · simp only [hmp] at h
          rcases List.mem_cons.mp h with h1 | h2
          · exact ⟨m, h1⟩
          · exact ih r3 q h2
      · exact ih rest q h

/-- A dollar-headed string is neither the sentinel nor empty. -/
theorem dollar_ne_sentinel (m : List Char) :
    (⟨'$' :: m⟩ : String) ≠ "N/A" ∧ (⟨'$' :: m⟩ : String) ≠ "" := by
  constructor
  · intro h
    have hd := congrArg String.data h
    rw [show ("N/A" : String).data = ['N', '/', 'A'] from rfl] at hd
    injection hd with h1 _
    exact absurd h1 (by decide)
  · intro h
    have hd := congrArg String.data h
    rw [show ("" : String).data = [] from rfl] at hd
    exact List.noConfusion hd

/-- When the page text was read, the pricing extractor returns a non-empty
list none of whose entries are the sentinel or empty, provided no
recovered ancestor-context snippet is itself the sentinel or empty. -/
theorem extract_pricing_entries (env : PricingEnv)
    (hctx : ∀ p t, env.parentText p = some t →
      strip (takeN 200 t) ≠ "N/A" ∧ strip (takeN 200 t) ≠ "") :
    extract_pricing env ≠ [] ∧
    ∀ q ∈ extract_pricing env, q ≠ "N/A" ∧ q ≠ "" := by
  by_cases hpr : findPrices env.pageText = []
  · have hval : extract_pricing env =
        (if containsSub "pricing" (lowerS env.pageText) ||
            containsSub "packages" (lowerS env.pageText) ||
            containsSub "rates" (lowerS env.pageText) ||
            containsSub "cost" (lowerS env.pageText) then
          ["Pricing page available - visit website"]
        else if containsSub "contact" (lowerS env.pageText) &&
            containsSub "quote" (lowerS env.pageText) then
          ["Contact for quote"]
        else ["Contact business for estimate"]) := by
      unfold extract_pricing
      dsimp only
      rw [if_neg (fun hn => hn hpr)]
    rw [hval]
    split
    · exact ⟨by simp, by intro q hq; rw [List.mem_singleton] at hq; subst hq; exact ⟨by decide, by decide⟩⟩
    · split
      · exact ⟨by simp, by intro q hq; rw [List.mem_singleton] at hq; subst hq; exact ⟨by decide, by decide⟩⟩
      · exact ⟨by simp, by intro q hq; rw [List.mem_singleton] at hq; subst hq; exact ⟨by decide, by decide⟩⟩
  · have hres : (((findPrices env.pageText).take 10).dedup).map (fun price =>
        match env.parentText price with
        | some t => strip (takeN 200 t)
        | none => price) ≠ [] := by
      rw [ne_eq, List.map_eq_nil_iff, List.dedup_eq_nil, List.take_eq_nil_iff]
      rintro (h | h)
      · exact absurd h (by decide)
      · exact hpr h
    have hval : extract_pricing env =
        (((findPrices env.pageText).take 10).dedup).map (fun price =>
          match env.parentText price with
          | some t => strip (takeN 200 t)
          | none => price) := by
      unfold extract_pricing
      dsimp only
      rw [if_pos hpr, if_pos hres]
    rw [hval]
    refine ⟨hres, ?_⟩
    intro q hq
    obtain ⟨price, hpm, hfq⟩ := List.mem_map.mp hq
    rcases hpt : env.parentText price with _ | t
    · rw [hpt] at hfq
      have hpp : price ∈ findPrices env.pageText :=
        List.take_subset 10 _ (List.mem_dedup.mp hpm)
      obtain ⟨m, hm⟩ := findPricesAux_dollar _ _ price hpp
      rw [← hfq, hm]
      exact dollar_ne_sentinel m
    · rw [hpt] at hfq
      rw [← hfq]
      exact hctx price t hpt

/-- Joining a non-empty list of non-sentinel, non-empty strings with "; "
never yields the sentinel. -/
theorem joinOrNA_ne_sentinel (xs : List String)
    (hne : xs ≠ []) (hall : ∀ q ∈ xs, q ≠ "N/A" ∧ q ≠ "") :
    joinOrNA xs ≠ "N/A" := by
  match xs with
  | [] => exact absurd rfl hne
  | [x] =>
    have hx := hall x (by simp)
    unfold joinOrNA joinSep
    rw [if_neg hx.2]
    exact hx.1
  | x :: y :: rest =>
    have hsemi : ';' ∈ (joinSep "; " (x :: y :: rest)).data := by
      show ';' ∈ (x ++ "; " ++ joinSep "; " (y :: rest)).data
      rw [String.data_append, String.data_append]
      refine List.mem_append.mpr (Or.inl (List.mem_append.mpr (Or.inr ?_)))
      decide
    have hj1 : joinSep "; " (x :: y :: rest) ≠ "" := by
      intro h
      rw [h] at hsemi
      exact absurd hsemi (by decide)
    have hj2 : joinSep "; " (x :: y :: rest) ≠ "N/A" := by
      intro h
      rw [h] at hsemi
      exact absurd hsemi (by decide)
    unfold joinOrNA
    rw [if_neg hj1]
    exact hj2

/-- A parent element's textContent whose first 200 characters are "N/A"
followed by whitespace, with the matched currency amount only appearing
beyond the truncation point. -/
def paddedParentText : String := "N/A" ++ (⟨List.replicate 197 ' '⟩ : String) ++ "$50"

/-- A successfully read page with one currency match whose recovered
ancestor context truncates and strips to exactly the sentinel. -/
def sentinelCtxEnv : PricingEnv :=
  ⟨"Detailing deals from $50 today", fun _ => some paddedParentText⟩

/-- C10 counterexample: a page whose body text reads fine can still make
`extract_pricing` return a list containing the sentinel — the recovered
context (first 200 characters of the ancestor's text, stripped) is "N/A"
itself — so the joined pricing value is the sentinel, the update guard is
not satisfied by pricing, and the lead is not excluded. -/
theorem extract_pricing_sentinel_counterexample :
    extract_pricing sentinelCtxEnv = ["N/A"] ∧
    joinOrNA (extract_pricing sentinelCtxEnv) = "N/A" := by
  refine ⟨by decide, by decide⟩

/-- C10 (amended): whenever reading the body text succeeds,
`extract_pricing` returns a non-empty list; provided no recovered
ancestor-context snippet is itself the sentinel or empty (the bare
currency matches and heuristic phrases never are), the list never contains
"N/A", the joined pricing column value is non-sentinel, Phase 2's
at-least-one-non-default update guard is satisfied for every candidate
lead, and that lead is excluded from all future Phase 2 candidate
queries — even when logo and services extraction found nothing. -/
theorem extract_pricing_nonempty_and_excludes :
    ∀ env : PricingEnv,
    (∀ p t, env.parentText p = some t →
      strip (takeN 200 t) ≠ "N/A" ∧ strip (takeN 200 t) ≠ "") →
    extract_pricing env ≠ [] ∧
    "N/A" ∉ extract_pricing env ∧
    joinOrNA (extract_pricing env) ≠ "N/A" ∧
    (∀ (db : DB) (city n w logo services : String),
      (n, w) ∈ get_leads_with_websites db city →
      (update_website_data true db city n logo services
          (joinOrNA (extract_pricing env))).2 = true ∧
      (n, w) ∉ get_leads_with_websites
        (update_website_data true db city n logo services
          (joinOrNA (extract_pricing env))).1 city) := by
  intro env hctx
  obtain ⟨hne, hall⟩ := extract_pricing_entries env hctx
  have hJ := joinOrNA_ne_sentinel _ hne hall
  refine ⟨hne, fun hmem => (hall _ hmem).1 rfl, hJ, ?_⟩
  intro db city n w logo services hmem
  have hupd := candidate_update_succeeds db city n w logo services _ hJ hmem
  exact ⟨hupd, update_true_excludes db city n w logo services _ hupd⟩

/-- C10 witness: a page with no currency pattern still yields a non-empty,
sentinel-free pricing list. -/
theorem extract_pricing_nonempty_witness :
    extract_pricing ⟨"please contact us for a quote", fun _ => none⟩ ≠ [] ∧
    "N/A" ∉ extract_pricing ⟨"please contact us for a quote", fun _ => none⟩ := by
  have h := extract_pricing_nonempty_and_excludes
    ⟨"please contact us for a quote", fun _ => none⟩
    (fun p t ht => Option.noConfusion ht)
  exact ⟨h.1, h.2.1⟩

end GNB
